import Mathlib

/-!
A verification development for the go-complete-resource repository.

The repository is a set of small teaching programs: a bank CLI that keeps a
single float64 balance and persists it to balance.txt as decimal text, a
note/todo mini-library that validates input and serializes to JSON, and a
user/admin package demonstrating struct embedding.

Modelling conventions:
- float64 money amounts are modelled as exact rationals.  Every finite
  float64 is a dyadic rational m * 2^(-e) = (m * 5^e) / 10^e, hence exactly
  representable as a decimal `Dec` (mantissa over a power of ten); overflow,
  rounding, Inf and NaN are outside the model.
- fmt.Sprint on a float64 produces a decimal string that strconv.ParseFloat
  maps back to the same value; we model it by `renderDec`, an exact decimal
  rendering, and model strconv.ParseFloat by `parseFloat`, an exact-rational
  implementation of its decimal grammar (sign, digits, one optional dot,
  optional e/E exponent; the hex, Inf, NaN and underscore forms are unused
  by these programs and left out).
- file contents are `Option String` (none = the file does not exist);
  console output is a list of the printed message literals.
- time.Now() is an ambient clock value threaded as an explicit `now`
  argument; a time.Time is identified with its serialized form (a String).
- encoding/json on the Note struct is modelled by an explicit marshaller
  (brace, comma and colon layout with the string escaping rules of the Go
  encoder: quote, backslash, \n \r \t, \u00XX for other control characters,
  < > & for the HTML-sensitive characters, and the U+2028/U+2029 line separators) and a decoder built from a
  faithful JSON string unescaper.
-/

/-- The decimal digit character for d (0-9); used by the decimal renderer. -/
def digitChar (d : Nat) : Char :=
  match d with
  | 0 => '0' | 1 => '1' | 2 => '2' | 3 => '3' | 4 => '4'
  | 5 => '5' | 6 => '6' | 7 => '7' | 8 => '8' | _ => '9'

/-- Numeric value of a decimal digit character. -/
def digitVal (c : Char) : Nat := c.toNat - 48

/-- Value of a string of decimal digits, most significant first
(the accumulating loop of strconv's decimal reader). -/
def digitsVal (l : List Char) : Nat := l.foldl (fun a c => 10 * a + digitVal c) 0

/-- Fuelled digit rendering of a natural number, most significant digit
first; fuel larger than n is always sufficient. -/
def natRenderGo : Nat → Nat → List Char
  | 0, _ => []
  | fuel + 1, n =>
    if n < 10 then [digitChar n]
    else natRenderGo fuel (n / 10) ++ [digitChar (n % 10)]

/-- Decimal digit string of a natural number (no sign, no leading zeros
except for 0 itself). -/
def natRender (n : Nat) : List Char := natRenderGo (n + 1) n

/-- An exactly-representable balance value: `man / 10 ^ exp`.  Every finite
float64 is of this form, so `Dec` covers every balance the bank programs can
hold. -/
structure Dec where
  man : Int
  exp : Nat
  deriving Repr, DecidableEq

/-- The rational value of a `Dec`. -/
def Dec.toRat (d : Dec) : ℚ := (d.man : ℚ) / 10 ^ d.exp

/-- Exact unsigned decimal rendering of `n / 10 ^ k`: integer digits, and
(when k > 0) a dot followed by exactly k fractional digits.  Together with
the sign handling of `renderDec` this models the decimal text fmt.Sprint
produces for a float64 (Sprint picks the shortest digit string that parses
back to the same value; any exact rendering parses back to the same exact
rational, which is what the round-trip claims consume). -/
def renderCore (n k : Nat) : List Char :=
  if k = 0 then natRender n
  else
    natRender (n / 10 ^ k) ++
      '.' :: (List.replicate (k - (natRender (n % 10 ^ k)).length) '0' ++
        natRender (n % 10 ^ k))

/-- Signed exact decimal rendering of `m / 10 ^ k`. -/
def renderDec (m : Int) (k : Nat) : List Char :=
  if m < 0 then '-' :: renderCore m.natAbs k else renderCore m.natAbs k

/-- Leading optional sign of a float literal, as consumed by
strconv.ParseFloat; returns (isNegative, rest). -/
def parseSign (l : List Char) : Bool × List Char :=
  match l with
  | [] => (false, [])
  | c :: r => if c = '-' then (true, r) else if c = '+' then (false, r) else (false, c :: r)

/-- The unsigned part of strconv.ParseFloat's decimal grammar, with exact
rational semantics: integer digits, at most one dot with fraction digits
(at least one digit overall), then an optional e/E exponent with its own
sign and at least one digit; the whole input must be consumed. -/
def parseFrac (s2 : List Char) : List Char × List Char :=
  match s2 with
  | [] => ([], [])
  | c :: r => if c = '.' then (r.takeWhile Char.isDigit, r.dropWhile Char.isDigit) else ([], c :: r)

/-- The optional e/E exponent tail of the grammar, applied to the mantissa
value: empty input keeps the mantissa, otherwise an exponent marker with its
own sign and at least one digit must consume the whole rest. -/
def parseExpPart (mant : ℚ) (s3 : List Char) : Option ℚ :=
  match s3 with
  | [] => some mant
  | e :: r =>
    if e = 'e' ∨ e = 'E' then
      let es := parseSign r
      let ed := es.2.takeWhile Char.isDigit
      let r2 := es.2.dropWhile Char.isDigit
      if ed = [] then none
      else if r2 = [] then
        some (mant * 10 ^ (if es.1 then -(digitsVal ed : Int) else (digitsVal ed : Int)))
      else none
    else none

def parseUnsigned (l : List Char) : Option ℚ :=
  let ip := l.takeWhile Char.isDigit
  let s2 := l.dropWhile Char.isDigit
  let fp := (parseFrac s2).1
  let s3 := (parseFrac s2).2
  if ip.length + fp.length = 0 then none
  else parseExpPart ((digitsVal ip : ℚ) + (digitsVal fp : ℚ) / 10 ^ fp.length) s3

/-- strconv.ParseFloat on the decimal grammar, with exact rational
semantics: none models a non-nil error (in which case the Go function
returns the value 0 alongside the error). -/
def parseFloat (l : List Char) : Option ℚ :=
  let s := parseSign l
  (parseUnsigned s.2).map (fun q => if s.1 then -q else q)

theorem digitVal_digitChar (d : Nat) (hd : d < 10) : digitVal (digitChar d) = d := by
  interval_cases d <;> decide

theorem isDigit_digitChar (d : Nat) (hd : d < 10) : (digitChar d).isDigit = true := by
  interval_cases d <;> decide

theorem digitsVal_concat (a : List Char) (c : Char) :
    digitsVal (a ++ [c]) = 10 * digitsVal a + digitVal c := by
  simp [digitsVal, List.foldl_append]

theorem digitsVal_zeros (z : Nat) (l : List Char) :
    digitsVal (List.replicate z '0' ++ l) = digitsVal l := by
  induction z with
  | zero => simp
  | succ z ih =>
    have h0 : (10 : Nat) * 0 + digitVal '0' = 0 := by decide
    simpa [digitsVal, List.replicate_succ, h0] using ih

theorem natRenderGo_spec (f : Nat) : ∀ n : Nat, n < f →
    digitsVal (natRenderGo f n) = n ∧
      (∀ c ∈ natRenderGo f n, c.isDigit = true) ∧ natRenderGo f n ≠ [] := by
  induction f with
  | zero => intro n h; omega
  | succ f ih =>
    intro n h
    by_cases hn : n < 10
    · refine ⟨?_, ?_, ?_⟩ <;>
        simp [natRenderGo, hn, digitsVal, digitVal_digitChar n hn, isDigit_digitChar n hn]
    · have hpos : 0 < n := by omega
      have hdivlt : n / 10 < n := Nat.div_lt_self hpos (by norm_num)
      have hrec : n / 10 < f := by omega
      obtain ⟨h1, h2, h3⟩ := ih (n / 10) hrec
      have hmod : n % 10 < 10 := Nat.mod_lt _ (by norm_num)
      refine ⟨?_, ?_, ?_⟩
      · simp only [natRenderGo, if_neg hn]
        rw [digitsVal_concat, h1, digitVal_digitChar _ hmod]
        omega
      · simp only [natRenderGo, if_neg hn]
        intro c hc
        rcases List.mem_append.mp hc with hc | hc
        · exact h2 c hc
        · simp at hc
          simpa [hc] using isDigit_digitChar _ hmod
      · simp [natRenderGo, hn]

theorem digitsVal_natRender (n : Nat) : digitsVal (natRender n) = n :=
  (natRenderGo_spec (n + 1) n (Nat.lt_succ_self n)).1

theorem natRender_digits (n : Nat) : ∀ c ∈ natRender n, c.isDigit = true :=
  (natRenderGo_spec (n + 1) n (Nat.lt_succ_self n)).2.1

theorem natRender_ne_nil (n : Nat) : natRender n ≠ [] :=
  (natRenderGo_spec (n + 1) n (Nat.lt_succ_self n)).2.2

theorem natRenderGo_length (f : Nat) : ∀ n k : Nat, n < f → n < 10 ^ k → 1 ≤ k →
    (natRenderGo f n).length ≤ k := by
  induction f with
  | zero => intro n k h; omega
  | succ f ih =>
    intro n k h hk h1
    by_cases hn : n < 10
    · simpa [natRenderGo, hn] using h1
    · have hk2 : 2 ≤ k := by
        rcases Nat.lt_or_ge k 2 with hlt | hge
        · have : k = 1 := by omega
          subst this
          simp at hk
          omega
        · exact hge
      have hpos : 0 < n := by omega
      have hdivlt : n / 10 < n := Nat.div_lt_self hpos (by norm_num)
      have hdiv : n / 10 < 10 ^ (k - 1) := by
        have hexp : 10 ^ k = 10 ^ (k - 1) * 10 := by
          rw [← pow_succ]
          congr 1
          omega
        rw [Nat.div_lt_iff_lt_mul (by norm_num : (0:Nat) < 10)]
        omega
      have := ih (n / 10) (k - 1) (by omega) hdiv (by omega)
      simp only [natRenderGo, if_neg hn, List.length_append, List.length_cons,
        List.length_nil]
      omega

theorem natRender_length_le (n k : Nat) (hk : 1 ≤ k) (hn : n < 10 ^ k) :
    (natRender n).length ≤ k :=
  natRenderGo_length (n + 1) n k (Nat.lt_succ_self n) hn hk

theorem takeWhile_append_all {p : Char → Bool} (ds rest : List Char)
    (h : ∀ c ∈ ds, p c = true) :
    List.takeWhile p (ds ++ rest) = ds ++ List.takeWhile p rest := by
  induction ds with
  | nil => simp
  | cons d ds ih =>
    have hd : p d = true := h d (List.mem_cons_self d ds)
    simp only [List.cons_append, List.takeWhile_cons, hd, if_true]
    rw [ih (fun c hc => h c (List.mem_cons_of_mem d hc))]

theorem dropWhile_append_all {p : Char → Bool} (ds rest : List Char)
    (h : ∀ c ∈ ds, p c = true) :
    List.dropWhile p (ds ++ rest) = List.dropWhile p rest := by
  induction ds with
  | nil => simp
  | cons d ds ih =>
    have hd : p d = true := h d (List.mem_cons_self d ds)
    simp only [List.cons_append, List.dropWhile_cons, hd, if_true]
    exact ih (fun c hc => h c (List.mem_cons_of_mem d hc))

theorem takeWhile_all {p : Char → Bool} (ds : List Char) (h : ∀ c ∈ ds, p c = true) :
    List.takeWhile p ds = ds := by
  simpa using takeWhile_append_all ds [] h

theorem dropWhile_all {p : Char → Bool} (ds : List Char) (h : ∀ c ∈ ds, p c = true) :
    List.dropWhile p ds = [] := by
  simpa using dropWhile_append_all ds [] h

theorem parseFrac_nil : parseFrac [] = ([], []) := rfl

theorem parseFrac_dot (r : List Char) :
    parseFrac ('.' :: r) = (r.takeWhile Char.isDigit, r.dropWhile Char.isDigit) := by
  simp [parseFrac]

theorem parseExpPart_nil (mant : ℚ) : parseExpPart mant [] = some mant := rfl

theorem parseUnsigned_renderCore (n k : Nat) :
    parseUnsigned (renderCore n k) = some ((n : ℚ) / 10 ^ k) := by
  by_cases hk : k = 0
  · subst hk
    have hcore : renderCore n 0 = natRender n := by simp [renderCore]
    rw [hcore]
    simp only [parseUnsigned]
    rw [takeWhile_all _ (natRender_digits n), dropWhile_all _ (natRender_digits n),
      parseFrac_nil]
    have hlen : (natRender n).length + ([] : List Char).length ≠ 0 := by
      have : (natRender n).length ≠ 0 :=
        fun h => natRender_ne_nil n (List.length_eq_zero.mp h)
      simpa using this
    rw [if_neg hlen, parseExpPart_nil]
    rw [digitsVal_natRender]
    norm_num [digitsVal]
  · have hkpos : 1 ≤ k := by omega
    have hpow : 0 < 10 ^ k := Nat.pos_pow_of_pos k (by norm_num)
    set q := n / 10 ^ k with hq
    set r := n % 10 ^ k with hr
    set L := natRender r with hL
    set z := k - L.length with hz
    have hrk : r < 10 ^ k := Nat.mod_lt _ hpow
    have hLlen : L.length ≤ k := natRender_length_le r k hkpos hrk
    have hfrac : ∀ c ∈ List.replicate z '0' ++ L, c.isDigit = true := by
      intro c hc
      rcases List.mem_append.mp hc with hc | hc
      · rw [List.eq_of_mem_replicate hc]; decide
      · exact natRender_digits r c hc
    have hcore : renderCore n k = natRender q ++ '.' :: (List.replicate z '0' ++ L) := by
      simp [renderCore, hk, ← hq, ← hr, ← hL, ← hz]
    rw [hcore]
    simp only [parseUnsigned]
    rw [takeWhile_append_all _ _ (natRender_digits q),
      dropWhile_append_all _ _ (natRender_digits q)]
    have hdot : ('.' : Char).isDigit = false := by decide
    have htw : List.takeWhile Char.isDigit ('.' :: (List.replicate z '0' ++ L)) = [] := by
      simp [List.takeWhile_cons, hdot]
    have hdw : List.dropWhile Char.isDigit ('.' :: (List.replicate z '0' ++ L)) =
        '.' :: (List.replicate z '0' ++ L) := by
      simp [List.dropWhile_cons, hdot]
    rw [htw, hdw, List.append_nil]
    simp only [parseFrac_dot]
    rw [takeWhile_all _ hfrac, dropWhile_all _ hfrac]
    have hlen : (natRender q).length + (List.replicate z '0' ++ L).length ≠ 0 := by
      have hq0 : (natRender q).length ≠ 0 :=
        fun h => natRender_ne_nil q (List.length_eq_zero.mp h)
      omega
    rw [if_neg hlen, parseExpPart_nil]
    rw [digitsVal_zeros, digitsVal_natRender, digitsVal_natRender]
    have hexp : (List.replicate z '0' ++ L).length = k := by
      simp [List.length_replicate]
      omega
    rw [hexp]
    have hne : ((10 : ℚ) ^ k) ≠ 0 := by positivity
    have hnat : q * 10 ^ k + r = n := by
      rw [mul_comm]
      exact Nat.div_add_mod n (10 ^ k)
    have hcast : (q : ℚ) * 10 ^ k + (r : ℚ) = (n : ℚ) := by exact_mod_cast hnat
    congr 1
    field_simp
    linarith

theorem parseSign_digit (c : Char) (r : List Char) (h : c.isDigit = true) :
    parseSign (c :: r) = (false, c :: r) := by
  have h1 : c ≠ '-' := by rintro rfl; exact absurd h (by decide)
  have h2 : c ≠ '+' := by rintro rfl; exact absurd h (by decide)
  simp [parseSign, h1, h2]

theorem renderCore_cons (n k : Nat) :
    ∃ c r, renderCore n k = c :: r ∧ c.isDigit = true := by
  unfold renderCore
  by_cases hk : k = 0
  · rcases hnr : natRender n with _ | ⟨c, cs⟩
    · exact absurd hnr (natRender_ne_nil n)
    · exact ⟨c, cs, by simp [hk, hnr],
        natRender_digits n c (by rw [hnr]; exact List.mem_cons_self c cs)⟩
  · rcases hnr : natRender (n / 10 ^ k) with _ | ⟨c, cs⟩
    · exact absurd hnr (natRender_ne_nil _)
    · refine ⟨c, cs ++ '.' :: (List.replicate (k - (natRender (n % 10 ^ k)).length) '0' ++
        natRender (n % 10 ^ k)), by simp [hk, hnr], ?_⟩
      exact natRender_digits _ c (by rw [hnr]; exact List.mem_cons_self c cs)

theorem parseFloat_renderCore (n k : Nat) :
    parseFloat (renderCore n k) = some ((n : ℚ) / 10 ^ k) := by
  obtain ⟨c, r, hcr, hd⟩ := renderCore_cons n k
  simp only [parseFloat, hcr, parseSign_digit c r hd]
  rw [← hcr, parseUnsigned_renderCore]
  simp

/-- The decimal serializer round-trips: parsing the rendered text of
`m / 10 ^ k` recovers exactly that rational. -/
theorem parseFloat_renderDec (m : Int) (k : Nat) :
    parseFloat (renderDec m k) = some ((m : ℚ) / 10 ^ k) := by
  by_cases hm : m < 0
  · have habs : ((m.natAbs : ℚ)) = -(m : ℚ) := by
      rw [Int.cast_natAbs, abs_of_neg hm]
      push_cast
      ring
    have hps : parseSign ('-' :: renderCore m.natAbs k) = (true, renderCore m.natAbs k) := by
      simp [parseSign]
    have hu : parseUnsigned (renderCore m.natAbs k) = some ((m.natAbs : ℚ) / 10 ^ k) :=
      parseUnsigned_renderCore m.natAbs k
    simp only [renderDec, if_pos hm, parseFloat, hps, hu, Option.map_some']
    simp [habs, neg_div]
  · have habs : ((m.natAbs : ℚ)) = (m : ℚ) := by
      rw [Int.cast_natAbs, abs_of_nonneg (not_lt.mp hm)]
    simp only [renderDec, if_neg hm]
    rw [parseFloat_renderCore m.natAbs k, habs]

/-- Lowercase hex digit characters, as emitted by Go's JSON encoder. -/
def hexDigitChar (d : Nat) : Char :=
  match d with
  | 0 => '0' | 1 => '1' | 2 => '2' | 3 => '3' | 4 => '4' | 5 => '5' | 6 => '6'
  | 7 => '7' | 8 => '8' | 9 => '9' | 10 => 'a' | 11 => 'b' | 12 => 'c'
  | 13 => 'd' | 14 => 'e' | _ => 'f'

def isHexDigit (c : Char) : Bool :=
  c.isDigit || ('a' ≤ c && c ≤ 'f') || ('A' ≤ c && c ≤ 'F')

def hexVal (c : Char) : Nat :=
  if c.isDigit then c.toNat - 48
  else if 'a' ≤ c && c ≤ 'f' then c.toNat - 87
  else c.toNat - 55

/-- Escaping of one character inside a JSON string, following Go's
encoding/json string encoder with the default (HTML-escaping) settings:
quote and backslash get a backslash escape, \n \r \t their short escapes,
other control characters a \u00XX escape, the HTML-sensitive characters
and the U+2028/U+2029 line separators a \uXXXX escape, and every other
character is emitted as itself. -/
def escChar (c : Char) : List Char :=
  if c = '"' then ['\\', '"']
  else if c = '\\' then ['\\', '\\']
  else if c = '\n' then ['\\', 'n']
  else if c = '\r' then ['\\', 'r']
  else if c = '\t' then ['\\', 't']
  else if c.toNat < 32 then
    ['\\', 'u', '0', '0', hexDigitChar (c.toNat / 16), hexDigitChar (c.toNat % 16)]
  else if c = '<' then ['\\', 'u', '0', '0', '3', 'c']
  else if c = '>' then ['\\', 'u', '0', '0', '3', 'e']
  else if c = '&' then ['\\', 'u', '0', '0', '2', '6']
  else if c.toNat = 8232 then ['\\', 'u', '2', '0', '2', '8']
  else if c.toNat = 8233 then ['\\', 'u', '2', '0', '2', '9']
  else [c]

/-- The body of a JSON string produced by Go's encoder (without the
surrounding quotes). -/
def escString : List Char → List Char
  | [] => []
  | c :: cs => escChar c ++ escString cs

/-- JSON string scanner: reads the body of a JSON string up to its closing
quote, undoing the escapes; returns the decoded characters and the input
after the closing quote.  Surrogate-pair \u escapes never occur in this
development's inputs and are decoded naïvely. -/
def unescString : List Char → Option (List Char × List Char)
  | [] => none
  | c :: rest =>
    if c = '"' then some ([], rest)
    else if c = '\\' then
      match rest with
      | [] => none
      | e :: r =>
        if e = '"' then (unescString r).map (fun p => ('"' :: p.1, p.2))
        else if e = '\\' then (unescString r).map (fun p => ('\\' :: p.1, p.2))
        else if e = '/' then (unescString r).map (fun p => ('/' :: p.1, p.2))
        else if e = 'n' then (unescString r).map (fun p => ('\n' :: p.1, p.2))
        else if e = 'r' then (unescString r).map (fun p => ('\r' :: p.1, p.2))
        else if e = 't' then (unescString r).map (fun p => ('\t' :: p.1, p.2))
        else if e = 'b' then (unescString r).map (fun p => (Char.ofNat 8 :: p.1, p.2))
        else if e = 'f' then (unescString r).map (fun p => (Char.ofNat 12 :: p.1, p.2))
        else if e = 'u' then
          match r with
          | h1 :: h2 :: h3 :: h4 :: r2 =>
            if isHexDigit h1 && isHexDigit h2 && isHexDigit h3 && isHexDigit h4 then
              (unescString r2).map (fun p =>
                (Char.ofNat (hexVal h1 * 4096 + hexVal h2 * 256 + hexVal h3 * 16 + hexVal h4)
                  :: p.1, p.2))
            else none
          | _ => none
        else none
    else (unescString rest).map (fun p => (c :: p.1, p.2))

theorem hexVal_hexDigitChar (d : Nat) (hd : d < 16) : hexVal (hexDigitChar d) = d := by
  interval_cases d <;> decide

theorem isHexDigit_hexDigitChar (d : Nat) (hd : d < 16) :
    isHexDigit (hexDigitChar d) = true := by
  interval_cases d <;> decide

/-- The JSON string escaper round-trips against the scanner and leaves the
input after the closing quote untouched. -/
theorem unescString_escString (s rest : List Char) :
    unescString (escString s ++ '"' :: rest) = some (s, rest) := by
  induction s with
  | nil =>
    show unescString ('"' :: rest) = some ([], rest)
    unfold unescString
    simp
  | cons c cs ih =>
    show unescString ((escChar c ++ escString cs) ++ '"' :: rest) = some (c :: cs, rest)
    rw [List.append_assoc]
    by_cases h1 : c = '"'
    · subst h1
      simp only [escChar, reduceIte, List.cons_append, List.nil_append]
      unfold unescString
      simp [ih]
    by_cases h2 : c = '\\'
    · subst h2
      simp only [escChar, reduceIte, List.cons_append, List.nil_append]
      unfold unescString
      simp [ih]
    by_cases h3 : c = '\n'
    · subst h3
      simp only [escChar, reduceIte, List.cons_append, List.nil_append]
      unfold unescString
      simp [ih]
    by_cases h4 : c = '\r'
    · subst h4
      simp only [escChar, reduceIte, List.cons_append, List.nil_append]
      unfold unescString
      simp [ih]
    by_cases h5 : c = '\t'
    · subst h5
      simp only [escChar, reduceIte, List.cons_append, List.nil_append]
      unfold unescString
      simp [ih]
    by_cases h6 : c.toNat < 32
    · have hhiv : hexVal (hexDigitChar (c.toNat / 16)) = c.toNat / 16 :=
        hexVal_hexDigitChar _ (by omega)
      have hlov : hexVal (hexDigitChar (c.toNat % 16)) = c.toNat % 16 :=
        hexVal_hexDigitChar _ (by omega)
      have hhih : isHexDigit (hexDigitChar (c.toNat / 16)) = true :=
        isHexDigit_hexDigitChar _ (by omega)
      have hloh : isHexDigit (hexDigitChar (c.toNat % 16)) = true :=
        isHexDigit_hexDigitChar _ (by omega)
      have g0 : isHexDigit '0' = true := by decide
      have h00 : hexVal '0' = 0 := by decide
      have harith : c.toNat / 16 * 16 + c.toNat % 16 = c.toNat := by omega
      simp only [escChar, if_neg h1, if_neg h2, if_neg h3, if_neg h4, if_neg h5,
        if_pos h6, List.cons_append, List.nil_append]
      unfold unescString
      simp [g0, h00, hhih, hloh, hhiv, hlov, harith, Char.ofNat_toNat, ih]
    by_cases h7 : c = '<'
    · subst h7
      simp only [escChar, reduceIte, List.cons_append, List.nil_append]
      unfold unescString
      simp [ih]
      all_goals decide
    by_cases h8 : c = '>'
    · subst h8
      simp only [escChar, reduceIte, List.cons_append, List.nil_append]
      unfold unescString
      simp [ih]
      all_goals decide
    by_cases h9 : c = '&'
    · subst h9
      simp only [escChar, reduceIte, List.cons_append, List.nil_append]
      unfold unescString
      simp [ih]
      all_goals decide
    by_cases h10 : c.toNat = 8232
    · have hc : c = Char.ofNat 8232 := by rw [← h10, Char.ofNat_toNat]
      simp only [escChar, if_neg h1, if_neg h2, if_neg h3, if_neg h4, if_neg h5,
        if_neg h6, if_neg h7, if_neg h8, if_neg h9, if_pos h10, List.cons_append,
        List.nil_append]
      rw [hc]
      unfold unescString
      simp [ih]
      all_goals decide
    by_cases h11 : c.toNat = 8233
    · have hc : c = Char.ofNat 8233 := by rw [← h11, Char.ofNat_toNat]
      simp only [escChar, if_neg h1, if_neg h2, if_neg h3, if_neg h4, if_neg h5,
        if_neg h6, if_neg h7, if_neg h8, if_neg h9, if_neg h10, if_pos h11,
        List.cons_append, List.nil_append]
      rw [hc]
      unfold unescString
      simp [ih]
      all_goals decide
    · simp only [escChar, if_neg h1, if_neg h2, if_neg h3, if_neg h4, if_neg h5,
        if_neg h6, if_neg h7, if_neg h8, if_neg h9, if_neg h10, if_neg h11,
        List.cons_append, List.nil_append]
      unfold unescString
      simp [h1, h2, ih]

/-- A JSON string literal: opening quote, escaped body, closing quote. -/
def jString (s : String) : List Char := '"' :: (escString s.data ++ ['"'])

def expectChar (c : Char) : List Char → Option (List Char)
  | [] => none
  | x :: r => if x = c then some r else none

/-- One key-value member of a JSON object whose values are strings. -/
def parseMember (l : List Char) : Option ((List Char × List Char) × List Char) := do
  let r ← expectChar '"' l
  let p ← unescString r
  let r2 ← expectChar ':' p.2
  let r3 ← expectChar '"' r2
  let p2 ← unescString r3
  pure ((p.1, p2.1), p2.2)

/-- The rendered form of one key-value member, as the Go encoder lays it
out. -/
def renderMember (k v : String) : List Char := jString k ++ ':' :: jString v

theorem expectChar_cons (c x : Char) (r : List Char) :
    expectChar c (x :: r) = if x = c then some r else none := rfl

theorem parseMember_render (k v : String) (rest : List Char) :
    parseMember (renderMember k v ++ rest) = some ((k.data, v.data), rest) := by
  simp [renderMember, jString, parseMember, expectChar_cons, List.append_assoc,
    List.cons_append, unescString_escString]

/-- strings.ReplaceAll for a one-character pattern and replacement (the
only use in this repository is ReplaceAll(title, " ", "_")); with a
one-character pattern Go replaces each occurrence independently, i.e. maps
characters. -/
def replaceAllChar (s : String) (old repl : Char) : String :=
  String.mk (s.data.map (fun c => if c = old then repl else c))

/-- strings.ToLower on one character, restricted to ASCII (Go applies the
full Unicode lowercase table; A-Z is the part these claims exercise and
other characters are left unchanged here). -/
def toLowerChar (c : Char) : Char :=
  if 'A' ≤ c ∧ c ≤ 'Z' then Char.ofNat (c.toNat + 32) else c

/-- strings.ToLower, character by character. -/
def goToLower (s : String) : String := String.mk (s.data.map toLowerChar)

/-- A file write performed by a save operation: target name and bytes. -/
structure FileWrite where
  name : String
  content : List Char
  deriving Repr, DecidableEq

namespace note

/-- The Note struct of the note package: Title, Content, CreatedAt.  The
time.Time field is identified with its serialized representation. -/
structure Note where
  Title : String
  Content : String
  CreatedAt : String
  deriving Repr, DecidableEq

/-- note.New from both note.go variants (16-fixes and 17-struct-tags):
reject an empty title or content with the error "Invalid input." and the
zero Note; otherwise build the Note from the arguments with the ambient
clock value time.Now() as CreatedAt.  Go returns the pair (Note, error);
the error is the Option String component. -/
def New (title content now : String) : Note × Option String :=
  if title = "" ∨ content = "" then (⟨"", "", ""⟩, some "Invalid input.")
  else (⟨title, content, now⟩, none)

/-- The filename Save computes, step by step as written in the 16-fixes
variant: replace all spaces by underscores, lower-case, append ".json"
(the 17-struct-tags variant composes the same two calls in one line). -/
def saveFileName (title : String) : String :=
  let f1 := replaceAllChar title ' ' '_'
  let f2 := goToLower f1
  f2 ++ ".json"

/-- json.Marshal of the tagged Note struct (17-struct-tags): member keys
come from the struct tags json:"title", json:"content", json:"created_at",
in field order. -/
def marshalNote (n : Note) : List Char :=
  '{' :: (renderMember "title" n.Title ++
    ',' :: (renderMember "content" n.Content ++
      ',' :: (renderMember "created_at" n.CreatedAt ++ ['}'])))

/-- json.Marshal of the untagged Note struct (16-fixes): member keys are
the exported Go field names, in field order. -/
def marshalNoteUntagged (n : Note) : List Char :=
  '{' :: (renderMember "Title" n.Title ++
    ',' :: (renderMember "Content" n.Content ++
      ',' :: (renderMember "CreatedAt" n.CreatedAt ++ ['}'])))

/-- Note.Save (17-struct-tags): derive the filename from the title, marshal
the note, write the file.  The method has a value receiver and never
assigns to it; the receiver is returned alongside the write so the frame
condition is statable. -/
def Save (n : Note) : Note × FileWrite := (n, ⟨saveFileName n.Title, marshalNote n⟩)

/-- Note.Display: prints the title and content; value receiver returned
unchanged. -/
def Display (n : Note) : Note × String :=
  (n, "Your note titled " ++ n.Title ++ " has the following content:\n\n" ++
    n.Content ++ "\n\n")

/-- Scanner for the three-member JSON object layout the encoder produces;
returns the key-value pairs as raw character lists and requires the whole
input to be consumed. -/
def parseNoteObj (l : List Char) : Option (List (List Char × List Char)) := do
  let r ← expectChar '{' l
  let m1 ← parseMember r
  let r2 ← expectChar ',' m1.2
  let m2 ← parseMember r2
  let r4 ← expectChar ',' m2.2
  let m3 ← parseMember r4
  let r6 ← expectChar '}' m3.2
  if r6 = [] then pure [m1.1, m2.1, m3.1] else none

/-- One step of json.Unmarshal's field matching on the tagged Note struct:
a member whose key equals a field's JSON name assigns that field; other
keys are ignored. -/
def fieldAssign (n : Note) (m : List Char × List Char) : Note :=
  if m.1 = "title".data then { n with Title := String.mk m.2 }
  else if m.1 = "content".data then { n with Content := String.mk m.2 }
  else if m.1 = "created_at".data then { n with CreatedAt := String.mk m.2 }
  else n

/-- json.Unmarshal of a tagged Note: parse the object members and fold the
field assignments over the zero Note. -/
def unmarshalNote (l : List Char) : Option Note := do
  let ms ← parseNoteObj l
  pure (ms.foldl fieldAssign ⟨"", "", ""⟩)

theorem parseNoteObj_marshal (n : Note) :
    parseNoteObj (marshalNote n) =
      some [("title".data, n.Title.data), ("content".data, n.Content.data),
        ("created_at".data, n.CreatedAt.data)] := by
  simp [parseNoteObj, marshalNote, expectChar_cons, parseMember_render]

theorem unmarshalNote_marshalNote (n : Note) :
    unmarshalNote (marshalNote n) = some n := by
  cases n with
  | mk t c ca =>
    have hmk : ∀ s : String, String.mk s.data = s := fun s => rfl
    have h1 : fieldAssign ⟨"", "", ""⟩ ("title".data, t.data) = ⟨t, "", ""⟩ := by
      simp [fieldAssign, hmk]
    have hne1 : "content".data ≠ "title".data := by decide
    have h2 : fieldAssign ⟨t, "", ""⟩ ("content".data, c.data) = ⟨t, c, ""⟩ := by
      simp [fieldAssign, hne1, hmk]
    have hne2 : "created_at".data ≠ "title".data := by decide
    have hne3 : "created_at".data ≠ "content".data := by decide
    have h3 : fieldAssign ⟨t, c, ""⟩ ("created_at".data, ca.data) = ⟨t, c, ca⟩ := by
      simp [fieldAssign, hne2, hne3, hmk]
    simp [unmarshalNote, parseNoteObj_marshal, List.foldl, h1, h2, h3]

end note

namespace todo

/-- Modelled from the spec: the todo package's source file is not under
src/ (only its caller in 06-interfaces/04-using-the-interface is); per the
spec a Todo is \x7btext, createdAt\x7d, "structurally identical in spirit
to Note with one field". -/
structure Todo where
  Text : String
  CreatedAt : String
  deriving Repr, DecidableEq

/-- Modelled from the spec: todo.New is a validating factory that "fails
exactly when text is empty"; on failure it returns the zero Todo and a
non-nil error, otherwise the Todo with the ambient clock value. -/
def New (text now : String) : Todo × Option String :=
  if text = "" then (⟨"", ""⟩, some "Invalid input.")
  else (⟨text, now⟩, none)

end todo

namespace bank

inductive MenuOp where
  | check : MenuOp
  | deposit : ℚ → MenuOp
  | withdraw : ℚ → MenuOp
  deriving Repr, DecidableEq

/-- The observable state of one run of the validated bank menu loop: the
in-memory balance, the successive values written to balance.txt (each
write overwrites the file, so the last element is the file's content), and
the printed messages (each message is the literal first argument of the
corresponding Println). -/
structure BankState where
  balance : ℚ
  writes : List ℚ
  msgs : List String
  deriving Repr, DecidableEq

/-- One iteration of the menu switch of 22-writing-to-files/bank.go (the
same validation appears in 18-nested-if, 20-infinite-loop-break-continue,
part_006..part_009 and the fileops-backed variant): case 1 prints the
balance; case 2 rejects a non-positive deposit leaving the state untouched,
otherwise adds the amount and writes the file; case 3 rejects a
non-positive amount, then an amount exceeding the balance, leaving the
state untouched, otherwise subtracts the amount and writes the file. -/
def step (s : BankState) (op : MenuOp) : BankState :=
  match op with
  | .check => { s with msgs := s.msgs ++ ["Your balance is"] }
  | .deposit amt =>
    if amt ≤ 0 then
      { s with msgs := s.msgs ++ ["Invalid amount. Must be greater than 0."] }
    else
      { balance := s.balance + amt,
        writes := s.writes ++ [s.balance + amt],
        msgs := s.msgs ++ ["Balance updated! New amount:"] }
  | .withdraw amt =>
    if amt ≤ 0 then
      { s with msgs := s.msgs ++ ["Invalid amount. Must be greater than 0."] }
    else if s.balance < amt then
      { s with msgs := s.msgs ++ ["Invalid amount. You can\x27t withdraw more than you have."] }
    else
      { balance := s.balance - amt,
        writes := s.writes ++ [s.balance - amt],
        msgs := s.msgs ++ ["Balance updated! New amount:"] }

/-- A whole menu session: fold the switch over the entered operations in
order (the default case exits the loop changing nothing, so a session is a
finite list of the other operations). -/
def run (s : BankState) (ops : List MenuOp) : BankState := ops.foldl step s

/-- getBalanceFromFile of the error-returning variant (src/unnamed/part_008
and equivalently fileops.GetFloatFromFile callers): a missing file yields
the default 1000 with the error "Failed to find balance file."; contents
that do not parse yield 1000 with "Failed to parse stored balance value.";
otherwise the parsed value with a nil error. -/
def getBalanceFromFile (file : Option String) : ℚ × Option String :=
  match file with
  | none => (1000, some "Failed to find balance file.")
  | some contents =>
    match parseFloat contents.data with
    | none => (1000, some "Failed to parse stored balance value.")
    | some b => (b, none)

/-- getBalanceFromFile of the error-ignoring variant
(src/unnamed/part_003): a read error is discarded leaving data nil, so the
text is empty; a parse error is discarded leaving the Go zero value 0 in
the balance. -/
def getBalanceFromFileIgnoringErr (file : Option String) : ℚ :=
  (parseFloat (file.getD "").data).getD 0

/-- writeBalanceToFile on a representable balance: the file content is
fmt.Sprint of the value, modelled as its exact decimal rendering. -/
def writeBalanceToFile (d : Dec) : String := String.mk (renderDec d.man d.exp)

/-- The start of main in part_008: load the balance, print the ERROR banner
when the error is non-nil, and continue with the returned value either way
(the panic is commented out). -/
def initialState (file : Option String) : BankState :=
  { balance := (getBalanceFromFile file).1,
    writes := [],
    msgs :=
      match (getBalanceFromFile file).2 with
      | some m => ["ERROR", m, "---------"]
      | none => [] }

/-- part_005, an early bank snippet: its deposit branch has no validation
at all, the entered amount is added to the balance unconditionally. -/
def unvalidatedDeposit (balance amt : ℚ) : ℚ := balance + amt

/-- The balance invariant as a state predicate: nonnegative in-memory
balance and every value ever written to the file nonnegative. -/
def goodState (s : BankState) : Prop :=
  0 ≤ s.balance ∧ ∀ w ∈ s.writes, 0 ≤ w

theorem step_good (s : BankState) (op : MenuOp) (h : goodState s) :
    goodState (step s op) := by
  obtain ⟨hb, hw⟩ := h
  cases op with
  | check => exact ⟨hb, hw⟩
  | deposit amt =>
    by_cases hle : amt ≤ 0
    · simpa [step, goodState, hle] using ⟨hb, hw⟩
    · have hlt : 0 < amt := lt_of_not_le hle
      refine ⟨by simp [step, hle]; linarith, ?_⟩
      intro w hwmem
      simp [step, hle] at hwmem
      rcases hwmem with hwmem | hwmem
      · exact hw w hwmem
      · subst hwmem; linarith
  | withdraw amt =>
    by_cases hle : amt ≤ 0
    · simpa [step, goodState, hle] using ⟨hb, hw⟩
    · by_cases hover : s.balance < amt
      · simpa [step, goodState, hle, hover] using ⟨hb, hw⟩
      · have hok : amt ≤ s.balance := le_of_not_lt hover
        refine ⟨by simp [step, hle, hover]; linarith, ?_⟩
        intro w hwmem
        simp [step, hle, hover] at hwmem
        rcases hwmem with hwmem | hwmem
        · exact hw w hwmem
        · subst hwmem; linarith

theorem run_good (ops : List MenuOp) : ∀ s : BankState, goodState s →
    goodState (run s ops) := by
  induction ops with
  | nil => intro s h; exact h
  | cons op ops ih =>
    intro s h
    exact ih (step s op) (step_good s op h)

end bank

namespace user

/-- The User struct of the user package (src/unnamed/part_015); all fields
unexported, createdAt identified with its serialized form. -/
structure User where
  firstName : String
  lastName : String
  birthDate : String
  createdAt : String
  deriving Repr, DecidableEq

/-- The Admin struct: its own email and password plus the embedded User. -/
structure Admin where
  email : String
  password : String
  user : User
  deriving Repr, DecidableEq

/-- (u *User) ClearUserName: assigns the empty string to firstName and
lastName; birthDate and createdAt are not touched. -/
def User.ClearUserName (u : User) : User := { u with firstName := "", lastName := "" }

/-- The method promoted to Admin by embedding: Go rewrites
admin.ClearUserName() to admin.User.ClearUserName(), mutating the embedded
User in place. -/
def Admin.ClearUserName (a : Admin) : Admin := { a with user := a.user.ClearUserName }

/-- user.NewAdmin: returns an Admin by value, performs no validation, and
hardcodes the embedded User fields, with createdAt from the ambient
clock. -/
def NewAdmin (email password now : String) : Admin :=
  ⟨email, password, ⟨"ADMIN", "ADMIN", "---", now⟩⟩

/-- user.New: validates that all three arguments are non-empty; on failure
returns the nil pointer (none) with the error, otherwise a pointer to the
new User with createdAt from the ambient clock. -/
def New (firstName lastName birthdate now : String) : Option User × Option String :=
  if firstName = "" ∨ lastName = "" ∨ birthdate = "" then
    (none, some "First name, last name and birthdate are required.")
  else
    (some ⟨firstName, lastName, birthdate, now⟩, none)

end user

namespace note

theorem parseNoteObj_marshalUntagged (n : Note) :
    parseNoteObj (marshalNoteUntagged n) =
      some [("Title".data, n.Title.data), ("Content".data, n.Content.data),
        ("CreatedAt".data, n.CreatedAt.data)] := by
  simp [parseNoteObj, marshalNoteUntagged, expectChar_cons, parseMember_render]

end note

theorem charToNat_ofNat_valid (n : Nat) (h : n.isValidChar) :
    (Char.ofNat n).toNat = n := by
  rw [Char.ofNat, dif_pos h]
  rfl

theorem toLowerChar_ne_space (c : Char) (h : c ≠ ' ') : toLowerChar c ≠ ' ' := by
  unfold toLowerChar
  split
  · rename_i hAZ
    intro he
    have h1 : ('A' : Char).toNat ≤ c.toNat := hAZ.1
    have h2 : c.toNat ≤ ('Z' : Char).toNat := hAZ.2
    have e1 : ('A' : Char).toNat = 65 := rfl
    have e2 : ('Z' : Char).toNat = 90 := rfl
    have hv : (c.toNat + 32).isValidChar := Or.inl (by omega)
    have he2 := congrArg Char.toNat he
    rw [charToNat_ofNat_valid _ hv] at he2
    have e3 : (' ' : Char).toNat = 32 := rfl
    omega
  · exact h

theorem parseFloat_neg42 : parseFloat ['-', '4', '2'] = some (-42 : ℚ) := by
  simp +decide [parseFloat, parseSign, parseUnsigned, parseFrac, parseExpPart,
    digitsVal, digitVal, List.takeWhile, List.dropWhile]

/-- C1: the claim as stated is false.  Two violations, at explicit inputs:
with the part_008 loader, a balance file containing "-42" parses
successfully, so the program starts at -42 and an accepted deposit of 10
leaves the balance (and the value written to the file) at -32 < 0; and in
part_005 the deposit branch has no validation at all, so from the fixed
1000 start a deposit of -2000 drives the balance to -1000 < 0. -/
theorem c1_counterexample :
    (bank.run (bank.initialState (some "-42")) [bank.MenuOp.deposit 10]).balance = -32 ∧
      (bank.run (bank.initialState (some "-42")) [bank.MenuOp.deposit 10]).writes = [-32] ∧
      ¬ (0 ≤ (bank.run (bank.initialState (some "-42")) [bank.MenuOp.deposit 10]).balance) ∧
      bank.unvalidatedDeposit 1000 (-2000) = -1000 ∧
      ¬ (0 ≤ bank.unvalidatedDeposit 1000 (-2000)) := by
  have hrun : bank.run (bank.initialState (some "-42")) [bank.MenuOp.deposit 10] =
      { balance := -32, writes := [-32],
        msgs := ["Balance updated! New amount:"] } := by
    simp [bank.run, bank.initialState, bank.getBalanceFromFile, parseFloat_neg42,
      bank.step, List.foldl]
    norm_num
  refine ⟨by rw [hrun], by rw [hrun], by rw [hrun]; norm_num, ?_, ?_⟩
  · simp [bank.unvalidatedDeposit]
    norm_num
  · simp [bank.unvalidatedDeposit]
    norm_num

/-- C1 (amended): for the validated menu loop, if the initial in-memory
balance is nonnegative (as with the fixed 1000.0 start of
22-writing-to-files, or whenever the loader's result is nonnegative, in
particular its 1000 default) and every previously written value is
nonnegative, then after any sequence of menu operations the in-memory
balance is nonnegative and every value written to the balance file is
nonnegative: deposits are accepted only for strictly positive amounts and
withdrawals only for strictly positive amounts not exceeding the current
balance. -/
theorem c1_balance_never_negative (s : bank.BankState) (ops : List bank.MenuOp)
    (h0 : 0 ≤ s.balance) (hw : ∀ w ∈ s.writes, 0 ≤ w) :
    0 ≤ (bank.run s ops).balance ∧ ∀ w ∈ (bank.run s ops).writes, 0 ≤ w :=
  bank.run_good ops s ⟨h0, hw⟩

theorem c1_witness :
    0 ≤ (bank.run (bank.initialState none)
        [bank.MenuOp.deposit 50, bank.MenuOp.withdraw 30]).balance ∧
      ∀ w ∈ (bank.run (bank.initialState none)
        [bank.MenuOp.deposit 50, bank.MenuOp.withdraw 30]).writes, 0 ≤ w :=
  c1_balance_never_negative (bank.initialState none)
    [bank.MenuOp.deposit 50, bank.MenuOp.withdraw 30]
    (by norm_num [bank.initialState, bank.getBalanceFromFile])
    (by simp [bank.initialState])

/-- C2: note.New returns a non-nil error exactly when title or content is
empty; on success the Note carries the given title and content (and the
clock value), on failure it is the zero Note.  todo.New (modelled from the
spec, its source not being under src/) fails exactly when the text is
empty. -/
theorem c2_new_validates (title content now : String) :
    (((note.New title content now).2 ≠ none) ↔ (title = "" ∨ content = "")) ∧
      (title ≠ "" → content ≠ "" →
        (note.New title content now).1 = ⟨title, content, now⟩) ∧
      ((title = "" ∨ content = "") → (note.New title content now).1 = ⟨"", "", ""⟩) ∧
      (∀ text now2 : String, ((todo.New text now2).2 ≠ none ↔ text = "")) := by
  refine ⟨?_, ?_, ?_, ?_⟩
  · by_cases h : title = "" ∨ content = "" <;> simp [note.New, h]
  · intro ht hc
    simp [note.New, ht, hc]
  · intro h
    simp only [note.New, if_pos h]
  · intro text now2
    by_cases h : text = "" <;> simp [todo.New, h]

theorem c2_witness :
    (note.New "a" "b" "t").1 = ⟨"a", "b", "t"⟩ ∧
      (note.New "" "b" "t").1 = ⟨"", "", ""⟩ ∧
      (todo.New "" "t").2 ≠ none :=
  ⟨(c2_new_validates "a" "b" "t").2.1 (by decide) (by decide),
    (c2_new_validates "" "b" "t").2.2.1 (Or.inl rfl),
    ((c2_new_validates "x" "y" "t").2.2.2 "" "t").mpr rfl⟩

/-- C3: round-trip serialization.  Writing any representable balance with
writeBalanceToFile and reading it back with getBalanceFromFile returns
exactly that value with a nil error; unmarshaling the JSON bytes produced
by Note.Save's marshaller reproduces the same Note value. -/
theorem c3_roundtrip :
    (∀ d : Dec, bank.getBalanceFromFile (some (bank.writeBalanceToFile d)) =
      (d.toRat, none)) ∧
      (∀ n : note.Note, note.unmarshalNote (note.marshalNote n) = some n) := by
  constructor
  · intro d
    have h : parseFloat (bank.writeBalanceToFile d).data = some d.toRat := by
      simpa [bank.writeBalanceToFile, Dec.toRat] using parseFloat_renderDec d.man d.exp
    simp [bank.getBalanceFromFile, h]
  · exact note.unmarshalNote_marshalNote

/-- C4: rejection is atomic in the menu loop.  A non-positive deposit, and
a non-positive or excessive withdrawal, only append the corresponding
rejection message, leaving the balance and the file writes untouched; an
accepted deposit or withdrawal updates the balance, appends the new value
to the file writes and prints the confirmation. -/
theorem c4_atomic_rejection (s : bank.BankState) (amt : ℚ) :
    (amt ≤ 0 →
      bank.step s (bank.MenuOp.deposit amt) =
        { s with msgs := s.msgs ++ ["Invalid amount. Must be greater than 0."] }) ∧
      (0 < amt →
        bank.step s (bank.MenuOp.deposit amt) =
          ⟨s.balance + amt, s.writes ++ [s.balance + amt],
            s.msgs ++ ["Balance updated! New amount:"]⟩) ∧
      (amt ≤ 0 →
        bank.step s (bank.MenuOp.withdraw amt) =
          { s with msgs := s.msgs ++ ["Invalid amount. Must be greater than 0."] }) ∧
      (0 < amt → s.balance < amt →
        bank.step s (bank.MenuOp.withdraw amt) =
          { s with msgs := s.msgs ++
            ["Invalid amount. You can\x27t withdraw more than you have."] }) ∧
      (0 < amt → amt ≤ s.balance →
        bank.step s (bank.MenuOp.withdraw amt) =
          ⟨s.balance - amt, s.writes ++ [s.balance - amt],
            s.msgs ++ ["Balance updated! New amount:"]⟩) := by
  refine ⟨?_, ?_, ?_, ?_, ?_⟩
  · intro h
    simp [bank.step, h]
  · intro h
    simp [bank.step, not_le.mpr h]
  · intro h
    simp [bank.step, h]
  · intro h hover
    simp [bank.step, not_le.mpr h, hover]
  · intro h hok
    simp [bank.step, not_le.mpr h, not_lt.mpr hok]

theorem c4_witness :
    bank.step ⟨100, [], []⟩ (bank.MenuOp.deposit (-5)) =
        ⟨100, [], [] ++ ["Invalid amount. Must be greater than 0."]⟩ ∧
      bank.step ⟨100, [], []⟩ (bank.MenuOp.withdraw 30) =
        ⟨100 - 30, [] ++ [100 - 30], [] ++ ["Balance updated! New amount:"]⟩ :=
  ⟨(c4_atomic_rejection ⟨100, [], []⟩ (-5)).1 (by norm_num),
    (c4_atomic_rejection ⟨100, [], []⟩ 30).2.2.2.2 (by norm_num) (by norm_num)⟩

/-- C5: fallback to a default when the balance file is missing or corrupt.
The error-returning loader yields 1000 with the matching error message on a
missing file or unparseable contents and the parsed value with a nil error
otherwise, and main continues with the returned value either way; the
error-ignoring loader yields 0 when the file is missing or its contents do
not parse. -/
theorem c5_default_fallback :
    (bank.getBalanceFromFile none = (1000, some "Failed to find balance file.")) ∧
      (∀ s : String, parseFloat s.data = none →
        bank.getBalanceFromFile (some s) =
          (1000, some "Failed to parse stored balance value.")) ∧
      (∀ (s : String) (v : ℚ), parseFloat s.data = some v →
        bank.getBalanceFromFile (some s) = (v, none)) ∧
      (∀ file : Option String,
        (bank.initialState file).balance = (bank.getBalanceFromFile file).1) ∧
      (bank.getBalanceFromFileIgnoringErr none = 0) ∧
      (∀ s : String, parseFloat s.data = none →
        bank.getBalanceFromFileIgnoringErr (some s) = 0) := by
  refine ⟨rfl, ?_, ?_, fun _ => rfl, ?_, ?_⟩
  · intro s h
    simp [bank.getBalanceFromFile, h]
  · intro s v h
    simp [bank.getBalanceFromFile, h]
  · simp +decide [bank.getBalanceFromFileIgnoringErr, parseFloat, parseSign,
      parseUnsigned, parseFrac, List.takeWhile, List.dropWhile]
  · intro s h
    simp [bank.getBalanceFromFileIgnoringErr, h]

theorem c5_witness :
    bank.getBalanceFromFile (some "abc") =
        (1000, some "Failed to parse stored balance value.") ∧
      bank.getBalanceFromFile (some "120.5") = (241 / 2, none) ∧
      bank.getBalanceFromFileIgnoringErr (some "abc") = 0 := by
  have habc : parseFloat "abc".data = none := by
    simp +decide [parseFloat, parseSign, parseUnsigned, parseFrac,
      List.takeWhile, List.dropWhile]
  have h1205 : parseFloat "120.5".data = some (241 / 2 : ℚ) := by
    simp +decide [parseFloat, parseSign, parseUnsigned, parseFrac, parseExpPart,
      digitsVal, digitVal, List.takeWhile, List.dropWhile]
    norm_num
  exact ⟨c5_default_fallback.2.1 "abc" habc,
    c5_default_fallback.2.2.1 "120.5" (241 / 2) h1205,
    c5_default_fallback.2.2.2.2.2 "abc" habc⟩

/-- C6: the file Note.Save writes to is named by replacing every space of
the title with an underscore, lower-casing the result and appending
".json"; consequently the filename never contains a space. -/
theorem c6_filename (n : note.Note) :
    ((note.Save n).2.name = goToLower (replaceAllChar n.Title ' ' '_') ++ ".json") ∧
      ∀ c ∈ ((note.Save n).2.name).data, c ≠ ' ' := by
  constructor
  · rfl
  · intro c hc
    have hdata : ((note.Save n).2.name).data =
        (goToLower (replaceAllChar n.Title ' ' '_')).data ++ ".json".data :=
      String.data_append _ _
    rw [hdata] at hc
    rcases List.mem_append.mp hc with hc | hc
    · obtain ⟨c0, hc0, rfl⟩ := List.mem_map.mp hc
      obtain ⟨c1, hc1, rfl⟩ := List.mem_map.mp hc0
      apply toLowerChar_ne_space
      by_cases h1 : c1 = ' ' <;> simp [h1]
    · have hjson : ∀ x ∈ ".json".data, x ≠ ' ' := by decide
      exact hjson c hc

theorem c6_witness :
    (note.Save ⟨"My Note", "x", "t"⟩).2.name =
        goToLower (replaceAllChar "My Note" ' ' '_') ++ ".json" ∧
      ' ' ∉ ((note.Save ⟨"My Note", "x", "t"⟩).2.name).data :=
  ⟨(c6_filename ⟨"My Note", "x", "t"⟩).1,
    fun hmem => (c6_filename ⟨"My Note", "x", "t"⟩).2 ' ' hmem rfl⟩

/-- C7: every Note successfully returned by note.New has a non-empty Title,
a non-empty Content and its CreatedAt set to the construction-time clock
value (the constructor takes no timestamp from the caller); Display and
Save have value receivers that never assign to the Note, so no operation of
the package modifies it. -/
theorem c7_note_invariant :
    (∀ title content now : String, (note.New title content now).2 = none →
      (note.New title content now).1.Title ≠ "" ∧
        (note.New title content now).1.Content ≠ "" ∧
        (note.New title content now).1.CreatedAt = now) ∧
      (∀ n : note.Note, (note.Display n).1 = n ∧ (note.Save n).1 = n) := by
  constructor
  · intro title content now h
    by_cases hcase : title = "" ∨ content = ""
    · simp [note.New, hcase] at h
    · push_neg at hcase
      simp [note.New, hcase.1, hcase.2]
  · intro n
    exact ⟨rfl, rfl⟩

theorem c7_witness :
    (note.New "a" "b" "t").1.Title ≠ "" ∧ (note.New "a" "b" "t").1.Content ≠ "" ∧
      (note.New "a" "b" "t").1.CreatedAt = "t" :=
  c7_note_invariant.1 "a" "b" "t" (by decide)

/-- C8: the JSON object written for a Note has exactly the three keys fixed
by the snippet's struct tags, in field order: "title", "content",
"created_at" in the tagged variant and the Go field names "Title",
"Content", "CreatedAt" in the untagged variant, and no others (the decoder
consumes the whole object finding exactly these three members). -/
theorem c8_json_keys (n : note.Note) :
    (note.parseNoteObj (note.marshalNote n)).map
        (fun ms => ms.map (fun m => String.mk m.1)) =
        some ["title", "content", "created_at"] ∧
      (note.parseNoteObj (note.marshalNoteUntagged n)).map
        (fun ms => ms.map (fun m => String.mk m.1)) =
        some ["Title", "Content", "CreatedAt"] := by
  constructor
  · rw [note.parseNoteObj_marshal]
    rfl
  · rw [note.parseNoteObj_marshalUntagged]
    rfl

/-- C9: ClearUserName empties firstName and lastName and leaves birthDate
and createdAt unchanged, both on a User and (through method promotion) on
the User embedded in an Admin, whose own email and password it does not
touch; the operation is idempotent. -/
theorem c9_clear_user_name :
    (∀ u : user.User,
      u.ClearUserName.firstName = "" ∧ u.ClearUserName.lastName = "" ∧
        u.ClearUserName.birthDate = u.birthDate ∧
        u.ClearUserName.createdAt = u.createdAt ∧
        u.ClearUserName.ClearUserName = u.ClearUserName) ∧
      (∀ a : user.Admin,
        a.ClearUserName.user = a.user.ClearUserName ∧
          a.ClearUserName.email = a.email ∧ a.ClearUserName.password = a.password ∧
          a.ClearUserName.ClearUserName = a.ClearUserName) := by
  constructor
  · intro u
    refine ⟨rfl, rfl, rfl, rfl, rfl⟩
  · intro a
    refine ⟨rfl, rfl, rfl, rfl⟩

/-- C10: user.NewAdmin performs no validation and never fails: for every
email and password (the empty strings included) it returns an Admin whose
own fields are the arguments and whose embedded User is hardcoded to
firstName "ADMIN", lastName "ADMIN", birthDate "---" (createdAt from the
clock) — whereas user.New returns a nil pointer and an error exactly when
firstName, lastName or birthdate is empty. -/
theorem c10_newadmin_unvalidated :
    (∀ email password now : String,
      user.NewAdmin email password now =
        ⟨email, password, ⟨"ADMIN", "ADMIN", "---", now⟩⟩) ∧
      (∀ fn ln bd now : String,
        ((user.New fn ln bd now).2 ≠ none ↔ (fn = "" ∨ ln = "" ∨ bd = "")) ∧
          ((user.New fn ln bd now).1 = none ↔ (fn = "" ∨ ln = "" ∨ bd = ""))) := by
  constructor
  · intro email password now
    rfl
  · intro fn ln bd now
    by_cases h : fn = "" ∨ ln = "" ∨ bd = "" <;>
      constructor <;> simp [user.New, h]

theorem c10_witness :
    user.NewAdmin "" "" "t" = ⟨"", "", ⟨"ADMIN", "ADMIN", "---", "t"⟩⟩ ∧
      (user.New "" "b" "c" "t").2 ≠ none :=
  ⟨c10_newadmin_unvalidated.1 "" "" "t",
    ((c10_newadmin_unvalidated.2 "" "b" "c" "t").1.mpr (Or.inl rfl))⟩
